import Mathlib

/-!
Verification of the meta-hybrid mount engine (yufengkeji/meta-hybrid_mount)
against its natural-language specification.

The Rust sources are shallowly embedded: pure decision logic becomes Lean
functions, filesystem-touching code becomes explicit state passing over
abstract filesystem oracles, and external effects (mount syscalls, serde
serialization) are abstracted as parameters.  Each definition names the
Rust item it embeds and where that item lives in the source tree.
-/

namespace HybridMount

/-! ### C1: tmpfs xattr-support detection (storage provisioner) -/

/-- Splitting a character list at every occurrence of a separator, used to
model Rust's `str::lines` (separator `\n`).  The model keeps a trailing
empty line that `str::lines` would drop; an empty line never matches the
scan below, so the difference is unobservable. -/
def splitOnChar (sep : Char) : List Char → List (List Char)
  | [] => [[]]
  | c :: rest =>
    let r := splitOnChar sep rest
    if c = sep then [] :: r
    else
      match r with
      | [] => [[c]]
      | g :: gs => (c :: g) :: gs

/-- Rust `str::trim` on a character list (strip whitespace on both ends). -/
def trimChars (l : List Char) : List Char :=
  ((l.dropWhile Char.isWhitespace).reverse.dropWhile Char.isWhitespace).reverse

/-- Rust `str::split_once('=')`: split at the first `=`, `none` when the
character does not occur. -/
def splitOnceEq : List Char → Option (List Char × List Char)
  | [] => none
  | c :: rest =>
    if c = '=' then some ([], rest)
    else
      match splitOnceEq rest with
      | none => none
      | some (k, v) => some (c :: k, v)

/-- One line of the `zcat /proc/config.gz` output, as examined by
`is_overlay_xattr_supported` in `src/utils/fs/xattr.rs` (lines 106-118):
comment lines (leading `#`) are skipped, the line is split at the first
`=`, and key and value are compared (after trimming) against
`CONFIG_TMPFS_XATTR` / `y`. -/
def configLineSaysTmpfsXattr (line : List Char) : Bool :=
  match line with
  | '#' :: _ => false
  | _ =>
    match splitOnceEq line with
    | none => false
    | some (k, v) =>
      trimChars k = "CONFIG_TMPFS_XATTR".data && trimChars v = "y".data

/-- `is_overlay_xattr_supported` from `src/utils/fs/xattr.rs` (lines 97-121):
scans the kernel build configuration (`zcat /proc/config.gz`) for a
non-comment line `CONFIG_TMPFS_XATTR=y`. -/
def is_overlay_xattr_supported (kernelConfig : String) : Bool :=
  (splitOnChar '\n' kernelConfig.data).any configLineSaysTmpfsXattr

/-- The facts about the running system that `storage::setup`
(`src/core/storage.rs`) consults, plus the observation the spec says it
should consult (`probeReadsBack`). -/
structure StorageEnv where
  /-- whether `utils::mount_tmpfs` on the target succeeds -/
  mountTmpfsOk : Bool
  /-- text produced by `zcat /proc/config.gz` -/
  kernelConfig : String
  /-- whether a probe `trusted.overlay.*` xattr written to a temp file in the
  freshly mounted tmpfs would read back byte-for-byte (the detection method
  the specification describes; the embedded code never reads this field) -/
  probeReadsBack : Bool
  /-- whether `/proc/filesystems` lists `erofs` -/
  erofsSupported : Bool
  /-- whether the ext4 loopback-image path succeeds -/
  ext4Ok : Bool
deriving DecidableEq, Repr

/-- Result of `try_setup_tmpfs`: the boolean it returns plus whether the
freshly mounted tmpfs was unmounted again before returning. -/
structure TmpfsAttempt where
  ok : Bool
  unmounted : Bool
deriving DecidableEq, Repr

/-- `try_setup_tmpfs` from `src/core/storage.rs` (lines 197-208): mount a
tmpfs, then consult `is_overlay_xattr_supported` (the `/proc/config.gz`
scan); on a negative answer the tmpfs is detach-unmounted and `false` is
returned. -/
def try_setup_tmpfs (env : StorageEnv) : TmpfsAttempt :=
  if env.mountTmpfsOk then
    if is_overlay_xattr_supported env.kernelConfig then ⟨true, false⟩
    else ⟨false, true⟩
  else ⟨false, false⟩

/-- Storage backend ultimately selected by `storage::setup`. -/
inductive StorageMode
  | erofsStaging
  | tmpfs
  | ext4
  | failed
deriving DecidableEq, Repr

/-- Backend selection order of `storage::setup` from `src/core/storage.rs`
(lines 125-195): EROFS staging when requested and supported, else the tmpfs
attempt unless `force_ext4`, else the ext4 loopback image. -/
def setupBackend (env : StorageEnv) (forceExt4 useErofs : Bool) : StorageMode :=
  if useErofs && env.erofsSupported then .erofsStaging
  else if !forceExt4 && (try_setup_tmpfs env).ok then .tmpfs
  else if env.ext4Ok then .ext4
  else .failed

/-- Modelled from the spec: the probe-write-then-read-verify detection the
specification prescribes ("writing a probe xattr on a temp file in the
tmpfs and reading it back byte-for-byte").  Its verdict is exactly whether
the probe reads back. -/
def probe_xattr_supported (env : StorageEnv) : Bool :=
  env.probeReadsBack

/-- A system whose kernel genuinely supports `trusted.overlay.*` xattrs on
tmpfs (the probe would read back) but whose `/proc/config.gz` does not
contain the line `CONFIG_TMPFS_XATTR=y`. -/
def probeOnlyEnv : StorageEnv :=
  { mountTmpfsOk := true
    kernelConfig := "CONFIG_EXT4_FS=y\nCONFIG_TMPFS=y"
    probeReadsBack := true
    erofsSupported := false
    ext4Ok := true }

/-- C1 counterexample: the tmpfs backend verifies xattr support by scanning
the `/proc/config.gz` capability list, not by a probe write.  On
`probeOnlyEnv` the probe would succeed, yet `try_setup_tmpfs` reports no
support and unmounts the tmpfs. -/
theorem tmpfs_detection_not_probe_counterexample :
    probe_xattr_supported probeOnlyEnv = true ∧
    (try_setup_tmpfs probeOnlyEnv).ok = false ∧
    (try_setup_tmpfs probeOnlyEnv).unmounted = true := by
  refine ⟨rfl, ?_, ?_⟩ <;> decide

/-- C1 amended: the tmpfs attempt succeeds exactly when the mount succeeds
and `/proc/config.gz` contains a non-comment `CONFIG_TMPFS_XATTR=y` line;
when the mount succeeded but that scan fails, the tmpfs is unmounted and
(with EROFS not selected and ext4 available) `setup` falls through to the
ext4 backend. -/
theorem tmpfs_detection_via_kernel_config (env : StorageEnv) :
    (try_setup_tmpfs env).ok
      = (env.mountTmpfsOk && is_overlay_xattr_supported env.kernelConfig) ∧
    ((try_setup_tmpfs env).unmounted = true ↔
      (env.mountTmpfsOk = true ∧ is_overlay_xattr_supported env.kernelConfig = false)) ∧
    (env.mountTmpfsOk = true → is_overlay_xattr_supported env.kernelConfig = false →
      env.ext4Ok = true → setupBackend env false false = .ext4) := by
  rcases hm : env.mountTmpfsOk <;>
    rcases hx : is_overlay_xattr_supported env.kernelConfig <;>
      simp [try_setup_tmpfs, setupBackend, hm, hx]

/-- C1 amended, witness at `probeOnlyEnv`. -/
theorem tmpfs_detection_via_kernel_config_witness :
    probeOnlyEnv.mountTmpfsOk = true ∧
    is_overlay_xattr_supported probeOnlyEnv.kernelConfig = false ∧
    probeOnlyEnv.ext4Ok = true ∧
    setupBackend probeOnlyEnv false false = .ext4 :=
  ⟨rfl, by decide, rfl,
    (tmpfs_detection_via_kernel_config probeOnlyEnv).2.2 rfl (by decide) rfl⟩

/-! ### C2: RuntimeState::save -/

/-- A filesystem side effect, for describing what a Rust function performs. -/
inductive FsOp
  | write (path : String) (content : String)
  | rename (src dst : String)
deriving DecidableEq, Repr

/-- Whether an operation is a rename. -/
def FsOp.isRename : FsOp → Bool
  | .rename _ _ => true
  | _ => false

/-- `defs::STATE_FILE` from `src/defs.rs` (line 7). -/
def STATE_FILE : String := "/data/adb/meta-hybrid/run/daemon_state.json"

/-- `RuntimeState` from `src/core/state.rs` (lines 15-29). -/
structure RuntimeState where
  timestamp : Nat
  pid : Nat
  storage_mode : String
  mount_point : String
  overlay_modules : List String
  magic_modules : List String
  active_mounts : List String
  zygisksu_enforce : Bool
  tmpfs_xattr_supported : Bool
deriving DecidableEq, Repr

/-- `RuntimeState::save` from `src/core/state.rs` (lines 65-71), as the
sequence of filesystem operations it performs: serialize to JSON (the serde
serializer is abstracted as the `serialize` argument) and `fs::write` the
result directly to `defs::STATE_FILE`. -/
def RuntimeState.saveOps (serialize : RuntimeState → String) (s : RuntimeState) :
    List FsOp :=
  [FsOp.write STATE_FILE (serialize s)]

/-- Modelled from the spec: an operation trace is a write-temp-then-rename
persistence of `path` when it writes some other file and then renames that
file onto `path`, never writing `path` directly. -/
def writeTempThenRename (path : String) (ops : List FsOp) : Bool :=
  match ops with
  | [FsOp.write tmp _, FsOp.rename src dst] =>
      tmp != path && src == tmp && dst == path
  | _ => false

/-- Effect of interrupting the first operation of a trace: an interrupted
write leaves only the first `keep` characters of its content at the target;
a rename is atomic, so interrupting it leaves the filesystem unchanged. -/
def crashFirstOp (fs : String → Option String) (ops : List FsOp) (keep : Nat) :
    String → Option String :=
  match ops with
  | FsOp.write p c :: _ => fun q => if q = p then some (c.take keep) else fs q
  | _ => fs

/-- A concrete runtime state for evaluating the embedded `save`. -/
def demoRuntimeState : RuntimeState :=
  { timestamp := 1700000000
    pid := 4242
    storage_mode := "tmpfs"
    mount_point := "/debug_ramdisk"
    overlay_modules := ["A"]
    magic_modules := []
    active_mounts := []
    zygisksu_enforce := false
    tmpfs_xattr_supported := true }

/-- C2 counterexample: `RuntimeState::save` is not write-temp-then-rename —
it is a single direct `fs::write` of the state file — and an error in the
middle of that write leaves the previously persisted file changed (here:
truncated to the empty string). -/
theorem runtime_state_save_not_atomic_counterexample :
    writeTempThenRename STATE_FILE
      (RuntimeState.saveOps (fun _ => "state-json") demoRuntimeState) = false ∧
    crashFirstOp (fun _ => some "previous")
        (RuntimeState.saveOps (fun _ => "state-json") demoRuntimeState) 0
        STATE_FILE ≠ some "previous" := by
  constructor
  · rfl
  · decide

/-- C2 amended: `save` persists the state as a single JSON document at the
fixed state-file path, but via one direct `fs::write` — no temporary file
and no rename are involved — so an error during that write can leave the
state file holding a partial prefix of the new JSON instead of the
previously persisted content. -/
theorem runtime_state_save_direct_write (serialize : RuntimeState → String)
    (s : RuntimeState) (fs : String → Option String) (keep : Nat) :
    RuntimeState.saveOps serialize s = [FsOp.write STATE_FILE (serialize s)] ∧
    ((RuntimeState.saveOps serialize s).all fun op => !op.isRename) = true ∧
    crashFirstOp fs (RuntimeState.saveOps serialize s) keep STATE_FILE
      = some ((serialize s).take keep) := by
  refine ⟨rfl, rfl, ?_⟩
  simp [RuntimeState.saveOps, crashFirstOp]

/-! ### Shared data model: mount modes and module rules (src/conf/config.rs) -/

/-- `MountMode` from `src/conf/config.rs` (lines 57-64); serde default is
`Overlay`. -/
inductive MountMode
  | overlay
  | magic
  | ignore
deriving DecidableEq, Repr

/-- `DefaultMode` from `src/conf/config.rs` (lines 49-55). -/
inductive DefaultMode
  | overlay
  | magic
deriving DecidableEq, Repr

/-- `ModuleRules` from `src/conf/config.rs` (lines 66-72).  The Rust
`HashMap<String, MountMode>` is modelled as an association list queried
with `List.lookup`; the map has no meaningful order in Rust, so only
lookup results matter. -/
structure ModuleRules where
  default_mode : MountMode
  paths : List (String × MountMode)
deriving DecidableEq, Repr

/-- `ModuleRules::get_mode` from `src/conf/config.rs` (lines 75-80). -/
def ModuleRules.get_mode (r : ModuleRules) (relative_path : String) : MountMode :=
  match List.lookup relative_path r.paths with
  | some m => m
  | none => r.default_mode

/-- `HashMap::insert`-style overwrite on the association-list model: the new
binding shadows (and here, replaces) any previous binding of the key. -/
def mapInsert {α : Type} (l : List (String × α)) (k : String) (v : α) :
    List (String × α) :=
  (k, v) :: l.filter (fun e => !(e.fst == k))

/-- `HashMap::extend` from the rules merge in
`src/core/inventory/scanner.rs` (line 57): every binding of `upd` is
inserted into `base`, overwriting on key collision. -/
def extendPaths (base upd : List (String × MountMode)) :
    List (String × MountMode) :=
  upd.foldl (fun acc kv => mapInsert acc kv.fst kv.snd) base

/-- First-defined choice of two optional values. -/
def firstSome {α : Type} : Option α → Option α → Option α
  | some v, _ => some v
  | none, b => b

/-- Outcome of looking for a module's `hybrid_rules.json`
(`src/core/inventory/scanner.rs` lines 34-53): the file may be absent,
unreadable, unparseable, or parsed into the partial-rules structure
(`PartialRules`, lines 19-23, both fields optional). -/
inductive InternalRules
  | absent
  | unreadable
  | malformed
  | parsed (default_mode : Option MountMode)
      (paths : Option (List (String × MountMode)))
deriving DecidableEq, Repr

/-- `load_module_rules` from `src/core/inventory/scanner.rs` (lines 25-61):
start from the engine config's global default; apply the module's own
`hybrid_rules.json` when present and parseable (each field only when
given); then, when the engine config's `rules` table has an entry for this
module id, overwrite `default_mode` with the entry's value unconditionally
and extend `paths` with the entry's map. -/
def load_module_rules (cfgDefault : DefaultMode) (internal : InternalRules)
    (globalEntry : Option ModuleRules) : ModuleRules :=
  let base : ModuleRules :=
    { default_mode :=
        match cfgDefault with
        | .overlay => .overlay
        | .magic => .magic
      paths := [] }
  let withInternal :=
    match internal with
    | .parsed dm ps =>
        { default_mode := dm.getD base.default_mode
          paths := ps.getD base.paths }
    | _ => base
  match globalEntry with
  | some g =>
      { default_mode := g.default_mode
        paths := extendPaths withInternal.paths g.paths }
  | none => withInternal

/-- Serde deserialization of one `rules` table entry in the engine config
(`ModuleRules` in `src/conf/config.rs` lines 66-72): both fields carry
`serde(default)`, so an entry that omits `default_mode` deserializes to
`MountMode::Overlay` and an omitted `paths` to the empty map. -/
def parseModuleRulesEntry (dm : Option MountMode)
    (ps : Option (List (String × MountMode))) : ModuleRules :=
  { default_mode := dm.getD .overlay
    paths := ps.getD [] }

/-! ### Inventory scan (src/core/inventory/scanner.rs) -/

/-- `validate_module_id` from `src/utils/validation.rs` (lines 26-34), the
regex `^[a-zA-Z][a-zA-Z0-9._-]+$` as a Boolean matcher: a leading ASCII
letter followed by at least one character from the id alphabet. -/
def validate_module_id (s : String) : Bool :=
  match s.data with
  | [] => false
  | c :: rest =>
    c.isAlpha && !rest.isEmpty &&
      rest.all (fun d => d.isAlpha || d.isDigit || d = '.' || d = '_' || d = '-')

/-- What the scanner can observe about one immediate child of the module
source directory (`src/core/inventory/scanner.rs` lines 77-109). -/
structure DirEnt where
  name : String
  isDir : Bool
  hasDisable : Bool
  hasRemove : Bool
  hasSkipMount : Bool
  internal : InternalRules
deriving DecidableEq, Repr

/-- The reserved names rejected by `scan`
(`src/core/inventory/scanner.rs` lines 88-93). -/
def reservedNames : List String :=
  ["meta-hybrid", "lost+found", ".git", ".idea", ".vscode"]

/-- The qualification test `scan` actually applies to a directory entry:
it must be a directory, not reserved, and carry none of the marker files
`disable`, `remove`, `skip_mount`.  (No module-id regex is consulted.) -/
def entryQualifies (e : DirEnt) : Bool :=
  e.isDir && !reservedNames.contains e.name &&
    !(e.hasDisable || e.hasRemove || e.hasSkipMount)

/-- The engine config fields the scanner and planner read
(`Config` in `src/conf/config.rs` lines 83-105). -/
structure EngineConfig where
  default_mode : DefaultMode
  rules : List (String × ModuleRules)
  partitions : List String
deriving DecidableEq, Repr

/-- A scanned module (`Module` in `src/core/inventory/scanner.rs` lines
63-68; the source path is the entry's name joined to the scan root). -/
structure Module where
  id : String
  rules : ModuleRules
deriving DecidableEq, Repr

/-- Insertion into a list sorted by the Boolean relation `le`. -/
def insertSorted {α : Type} (le : α → α → Bool) (x : α) : List α → List α
  | [] => [x]
  | y :: ys => if le x y then x :: y :: ys else y :: insertSorted le x ys

/-- Insertion sort by the Boolean relation `le`, modelling the stable
`sort_by` calls of the source. -/
def sortByLe {α : Type} (le : α → α → Bool) (l : List α) : List α :=
  l.foldr (insertSorted le) []

/-- The per-entry body of `scan`'s `filter_map`
(`src/core/inventory/scanner.rs` lines 79-109), with the checks in source
order: directory test, reserved-name test, marker-file test, then rule
loading.  No module-id validation appears here. -/
def scanStep (cfg : EngineConfig) (e : DirEnt) : Option Module :=
  if !e.isDir then none
  else if reservedNames.contains e.name then none
  else if e.hasDisable || e.hasRemove || e.hasSkipMount then none
  else some
    { id := e.name
      rules := load_module_rules cfg.default_mode e.internal
          (List.lookup e.name cfg.rules) }

/-- `scan` from `src/core/inventory/scanner.rs` (lines 70-115): keep the
child directories that pass the checks, attach their loaded rules, and
sort by id in descending order (`sort_by(|a, b| b.id.cmp(&a.id))`). -/
def scan (cfg : EngineConfig) (entries : List DirEnt) : List Module :=
  sortByLe (fun a b => decide (b.id ≤ a.id)) (entries.filterMap (scanStep cfg))

/-! #### Sorting and lookup lemmas -/

theorem mem_insertSorted {α : Type} (le : α → α → Bool) (x y : α)
    (l : List α) : y ∈ insertSorted le x l ↔ y = x ∨ y ∈ l := by
  induction l with
  | nil => simp [insertSorted]
  | cons z zs ih =>
    by_cases h : le x z = true
    · simp [insertSorted, h]
    · simp only [insertSorted, h, Bool.false_eq_true, if_false, List.mem_cons, ih]
      tauto

theorem mem_sortByLe {α : Type} (le : α → α → Bool) (y : α) (l : List α) :
    y ∈ sortByLe le l ↔ y ∈ l := by
  induction l with
  | nil => simp [sortByLe]
  | cons z zs ih =>
    simp only [sortByLe, List.foldr_cons, List.mem_cons]
    rw [mem_insertSorted]
    exact or_congr Iff.rfl ih

theorem lookup_eq_none_of_not_mem_keys {α : Type} (l : List (String × α))
    (q : String) (h : q ∉ l.map Prod.fst) : List.lookup q l = none := by
  induction l with
  | nil => rfl
  | cons kv rest ih =>
    simp only [List.map_cons, List.mem_cons] at h
    push_neg at h
    have hq : (q == kv.fst) = false := by
      simpa [beq_iff_eq] using h.1
    simp only [List.lookup, hq]
    exact ih h.2

theorem lookup_filter_ne {α : Type} (l : List (String × α)) (k q : String)
    (hqk : q ≠ k) :
    List.lookup q (l.filter (fun e => !(e.fst == k))) = List.lookup q l := by
  induction l with
  | nil => rfl
  | cons kv rest ih =>
    by_cases hk : kv.fst = k
    · have h1 : (!(kv.fst == k)) = false := by simp [hk]
      have h2 : (q == kv.fst) = false := by simp [hk, hqk]
      simp [List.filter_cons, h1, List.lookup, h2, ih]
    · have h1 : (!(kv.fst == k)) = true := by simp [hk]
      by_cases hq : q = kv.fst
      · simp [List.filter_cons, h1, List.lookup, hq]
      · have h2 : (q == kv.fst) = false := by simp [hq]
        simp [List.filter_cons, h1, List.lookup, h2, ih]

theorem lookup_mapInsert {α : Type} (l : List (String × α)) (k : String)
    (v : α) (q : String) :
    List.lookup q (mapInsert l k v)
      = if q = k then some v else List.lookup q l := by
  unfold mapInsert
  by_cases hqk : q = k
  · simp [List.lookup, hqk]
  · have h2 : (q == k) = false := by simp [hqk]
    simp [List.lookup, h2, hqk, lookup_filter_ne l k q hqk]

theorem lookup_extendPaths (base upd : List (String × MountMode)) (q : String) :
    (upd.map Prod.fst).Nodup →
    List.lookup q (extendPaths base upd)
      = firstSome (List.lookup q upd) (List.lookup q base) := by
  induction upd generalizing base with
  | nil => intro _; simp [extendPaths, firstSome]
  | cons kv rest ih =>
    intro h
    simp only [List.map_cons, List.nodup_cons] at h
    have step : extendPaths base (kv :: rest)
        = extendPaths (mapInsert base kv.fst kv.snd) rest := rfl
    rw [step, ih _ h.2]
    by_cases hq : q = kv.fst
    · have hr : List.lookup kv.fst rest = none :=
        lookup_eq_none_of_not_mem_keys rest kv.fst h.1
      have hb : (q == kv.fst) = true := by simp [hq]
      simp [firstSome, List.lookup, hb, lookup_mapInsert, hq, hr]
    · have hb : (q == kv.fst) = false := by simp [hq]
      simp [List.lookup, hb, lookup_mapInsert, hq,
        lookup_filter_ne base kv.fst q hq]

theorem scanStep_eq_some_iff (cfg : EngineConfig) (e : DirEnt) (m : Module) :
    scanStep cfg e = some m ↔
      entryQualifies e = true ∧
        { id := e.name
          rules := load_module_rules cfg.default_mode e.internal
              (List.lookup e.name cfg.rules) } = m := by
  rcases e with ⟨nm, d, f1, f2, f3, ir⟩
  unfold scanStep entryQualifies
  by_cases hc : reservedNames.contains nm <;>
    cases d <;> cases f1 <;> cases f2 <;> cases f3 <;> simp [hc]

/-- C3 counterexample: the scanner never consults the module-id regex.  The
directory name `9mod` fails `validate_module_id` (it does not start with a
letter), yet `scan` reports it as a module. -/
theorem scan_ignores_module_id_regex_counterexample :
    ((scan { default_mode := .overlay, rules := [], partitions := [] }
        [{ name := "9mod", isDir := true, hasDisable := false,
           hasRemove := false, hasSkipMount := false,
           internal := .absent }]).map Module.id) = ["9mod"] ∧
    validate_module_id "9mod" = false := by
  exact ⟨by decide, by decide⟩

/-- C3 amended: an immediate child appears as a module in the scan output
iff it is a directory, its name is not in the reserved set, and none of
the marker files `disable`, `remove`, `skip_mount` is present — the
module-id regex of `validate_module_id` is not part of the scan's
qualification test. -/
theorem scan_membership_characterization (cfg : EngineConfig)
    (entries : List DirEnt) (name : String) :
    (∃ m ∈ scan cfg entries, m.id = name) ↔
      ∃ e ∈ entries, e.name = name ∧ entryQualifies e = true := by
  constructor
  · rintro ⟨m, hm, hid⟩
    rw [scan, mem_sortByLe] at hm
    obtain ⟨e, he, hsome⟩ := List.mem_filterMap.mp hm
    obtain ⟨hq, hme⟩ := (scanStep_eq_some_iff cfg e m).mp hsome
    have hidm : m.id = e.name := by rw [← hme]
    exact ⟨e, he, by rw [← hid, hidm], hq⟩
  · rintro ⟨e, he, hname, hq⟩
    refine ⟨{ id := e.name
              rules := load_module_rules cfg.default_mode e.internal
                  (List.lookup e.name cfg.rules) }, ?_, hname⟩
    rw [scan, mem_sortByLe]
    exact List.mem_filterMap.mpr
      ⟨e, he, (scanStep_eq_some_iff cfg e _).mpr ⟨hq, rfl⟩⟩

/-- C3 amended, witness: a qualifying entry (`somemod`) is reported. -/
theorem scan_membership_characterization_witness :
    (∃ e ∈ [({ name := "somemod", isDir := true, hasDisable := false,
               hasRemove := false, hasSkipMount := false,
               internal := .absent } : DirEnt)],
        e.name = "somemod" ∧ entryQualifies e = true) ∧
    (∃ m ∈ scan { default_mode := .overlay, rules := [], partitions := [] }
        [{ name := "somemod", isDir := true, hasDisable := false,
           hasRemove := false, hasSkipMount := false,
           internal := .absent }], m.id = "somemod") :=
  ⟨⟨_, List.mem_singleton.mpr rfl, rfl, by decide⟩,
    (scan_membership_characterization _ _ _).mpr
      ⟨_, List.mem_singleton.mpr rfl, rfl, by decide⟩⟩

/-- C10: when the engine config's `rules` table has an entry for a module,
`load_module_rules` takes `default_mode` from that entry unconditionally,
and path lookups prefer the entry's overrides over the module's own; and
since a config entry deserializes an omitted `default_mode` to `Overlay`,
such an entry resets a module whose `hybrid_rules.json` declared `Magic`
back to `Overlay`. -/
theorem config_rules_entry_overrides (cfgDefault : DefaultMode)
    (internal : InternalRules) (g : ModuleRules)
    (hk : (g.paths.map Prod.fst).Nodup) :
    (load_module_rules cfgDefault internal (some g)).default_mode
        = g.default_mode ∧
    (∀ q, List.lookup q (load_module_rules cfgDefault internal (some g)).paths
        = firstSome (List.lookup q g.paths)
            (List.lookup q (load_module_rules cfgDefault internal none).paths)) ∧
    (∀ ps gps,
      (load_module_rules cfgDefault (.parsed (some .magic) ps)
          (some (parseModuleRulesEntry none gps))).default_mode = .overlay) := by
  refine ⟨rfl, ?_, ?_⟩
  · intro q
    exact lookup_extendPaths _ g.paths q hk
  · intro ps gps
    rfl

/-- C10 witness: a module declaring `Magic` in its own rules is forced back
to `Overlay` by a config entry that omits `default_mode`. -/
theorem config_rules_entry_overrides_witness :
    ((([("vendor", MountMode.ignore)] : List (String × MountMode)).map
        Prod.fst).Nodup) ∧
    (load_module_rules .overlay
        (.parsed (some .magic) (some [("system", .magic)]))
        (some { default_mode := .ignore,
                paths := [("vendor", .ignore)] })).default_mode = .ignore :=
  ⟨by decide,
    (config_rules_entry_overrides .overlay
      (.parsed (some .magic) (some [("system", .magic)]))
      { default_mode := .ignore, paths := [("vendor", .ignore)] }
      (by decide)).1⟩

/-! ### C9: atomic_write (src/utils/fs/file.rs) -/

/-- Which primitive filesystem steps of one `atomic_write` invocation
succeed.  The temp-file create, the buffered write and the rename are
all-or-nothing; the `fs::copy` fallback is not: it truncates the
destination via `File::create` and then streams, so a mid-copy failure
leaves the first `copyKept` bytes of the new content behind
(`copyKept` is only consulted when `copyOk = false`). -/
structure WriteOracle where
  createOk : Bool
  writeOk : Bool
  renameOk : Bool
  copyOk : Bool
  copyKept : Nat
deriving DecidableEq, Repr

/-- Success or error as returned to the caller. -/
inductive WriteOutcome
  | ok
  | error
deriving DecidableEq, Repr

/-- `atomic_write` from `src/utils/fs/file.rs` (lines 20-48) over a
filesystem modelled as a partial map from path to content.  `tempPath`
stands for the derived `.{pid}_{now}.tmp` sibling name.  Stepping through
the source: `create_new` the temp file (fails when it already exists or on
`createOk = false`, leaving the filesystem unchanged); `write_all` the
content (a failure propagates via `?` with the created temp file left
behind); `rename` onto `path`; on rename failure fall back to `fs::copy`,
which truncates `path` via `File::create` and then streams — on a
mid-copy failure `path` is left holding only the first `copyKept`
characters of the new content — and remove the temp file whether or not
the copy succeeded. -/
def atomic_write (fs : String → Option String) (p c tempPath : String)
    (o : WriteOracle) : (String → Option String) × WriteOutcome :=
  if (fs tempPath).isSome || !o.createOk then (fs, .error)
  else
    let fs1 : String → Option String :=
      fun q => if q = tempPath then some "" else fs q
    if !o.writeOk then (fs1, .error)
    else if o.renameOk then
      (fun q => if q = p then some c else if q = tempPath then none else fs q,
        .ok)
    else if o.copyOk then
      (fun q => if q = p then some c else if q = tempPath then none else fs q,
        .ok)
    else
      (fun q =>
        if q = p then some (c.take o.copyKept)
        else if q = tempPath then none else fs q,
        .error)

/-- C9 counterexample: when the buffered write to the fresh temp file fails,
`atomic_write` propagates the error with `?` and the temp file remains on
disk — contradicting "no temporary file remains" in every outcome. -/
theorem atomic_write_leftover_temp_counterexample :
    ((atomic_write (fun _ => none) "/data/adb/meta-hybrid/config.toml" "abc"
        "/data/adb/meta-hybrid/.42_7.tmp"
        { createOk := true, writeOk := false, renameOk := true,
          copyOk := true, copyKept := 0 }).fst
      "/data/adb/meta-hybrid/.42_7.tmp") = some "" ∧
    (atomic_write (fun _ => none) "/data/adb/meta-hybrid/config.toml" "abc"
        "/data/adb/meta-hybrid/.42_7.tmp"
        { createOk := true, writeOk := false, renameOk := true,
          copyOk := true, copyKept := 0 }).snd = .error := by
  exact ⟨by decide, by decide⟩

/-- C9 amended: after `atomic_write(p, c)`, on success `p` contains exactly
`c` and no temp file remains.  On error, either the failure happened at
the temp stage — `p` is unchanged, and the temporary file remains behind
exactly when the write to the fresh temp file itself failed — or the
rename failed and the `fs::copy` fallback failed too, in which case no
temp file remains but `p` is left holding a (possibly empty) prefix of
the new content, because the copy truncates `p` before streaming. -/
theorem atomic_write_outcomes (fs : String → Option String)
    (p c tempPath : String) (o : WriteOracle)
    (hfresh : fs tempPath = none) (hne : p ≠ tempPath) :
    ((atomic_write fs p c tempPath o).snd = .ok →
      (atomic_write fs p c tempPath o).fst p = some c ∧
      (atomic_write fs p c tempPath o).fst tempPath = none) ∧
    ((atomic_write fs p c tempPath o).snd = .error →
      ((atomic_write fs p c tempPath o).fst p = fs p ∧
        ((atomic_write fs p c tempPath o).fst tempPath = none ∨
          (atomic_write fs p c tempPath o).fst tempPath = some "")) ∨
      ((atomic_write fs p c tempPath o).fst p = some (c.take o.copyKept) ∧
        (atomic_write fs p c tempPath o).fst tempPath = none ∧
        o.renameOk = false ∧ o.copyOk = false)) ∧
    ((atomic_write fs p c tempPath o).fst tempPath = some "" →
      o.createOk = true ∧ o.writeOk = false) := by
  unfold atomic_write
  rcases o with ⟨co, wo, ro, cp, k⟩
  simp only [hfresh, Option.isSome_none, Bool.false_or]
  cases co <;> cases wo <;> cases ro <;> cases cp <;>
    simp [hfresh, hne, Ne.symm hne]

/-- C9 amended, witness: all four primitives succeed on an empty filesystem. -/
theorem atomic_write_outcomes_witness :
    ((fun _ => none : String → Option String) "/t/.1_1.tmp" = none) ∧
    ("/t/f" ≠ "/t/.1_1.tmp") ∧
    ((atomic_write (fun _ => none) "/t/f" "abc" "/t/.1_1.tmp"
        { createOk := true, writeOk := true, renameOk := true,
          copyOk := true, copyKept := 0 }).snd = .ok →
      (atomic_write (fun _ => none) "/t/f" "abc" "/t/.1_1.tmp"
          { createOk := true, writeOk := true, renameOk := true,
            copyOk := true, copyKept := 0 }).fst "/t/f" = some "abc" ∧
      (atomic_write (fun _ => none) "/t/f" "abc" "/t/.1_1.tmp"
          { createOk := true, writeOk := true, renameOk := true,
            copyOk := true, copyKept := 0 }).fst "/t/.1_1.tmp" = none) :=
  ⟨rfl, by decide,
    (atomic_write_outcomes (fun _ => none) "/t/f" "abc" "/t/.1_1.tmp"
      { createOk := true, writeOk := true, renameOk := true,
        copyOk := true, copyKept := 0 }
      rfl (by decide)).1⟩

/-! ### C7: plan execution (src/core/ops/executor.rs) -/

/-- `OverlayOperation` from `src/core/ops/planner.rs` (lines 21-26).
Paths are modelled as lists of components of an absolute path. -/
structure OverlayOperation where
  partition_name : String
  target : List String
  lowerdirs : List (List String)
deriving DecidableEq, Repr

/-- `MountPlan` from `src/core/ops/planner.rs` (lines 28-33). -/
structure MountPlanModel where
  overlay_ops : List OverlayOperation
  overlay_module_ids : List String
  magic_module_ids : List String
deriving DecidableEq, Repr

/-- `ExecutionResult` from `src/core/ops/executor.rs` (lines 23-26). -/
structure ExecutionResult where
  overlay_module_ids : List String
  magic_module_ids : List String
deriving DecidableEq, Repr

/-- `HashSet<String>` modelled as a duplicate-free list: insertion is a
no-op when the element is present. -/
def insertUnique (l : List String) (x : String) : List String :=
  if x ∈ l then l else l ++ [x]

/-- Insert every element of `xs`. -/
def insertAll (l : List String) (xs : List String) : List String :=
  xs.foldl insertUnique l

/-- The module ids involved in one overlay operation: `extract_module_id`
(abstracted as `extractId`, it walks up from a lowerdir to the directory
holding `module.prop`) applied to every lowerdir
(`src/core/ops/executor.rs` lines 35-39). -/
def involvedModules (extractId : List String → Option String)
    (op : OverlayOperation) : List String :=
  op.lowerdirs.filterMap extractId

/-- Phase 1 of `execute` (`src/core/ops/executor.rs` lines 29-98): the
magic set starts as the plan's magic ids; each overlay operation's mount
either succeeds (its modules join the overlay set) or fails (its modules
are requeued into the magic set).  `overlayOutcome i` is whether the
`i`-th operation's `mount_overlay` succeeded. -/
def executeAfterOps (plan : MountPlanModel)
    (extractId : List String → Option String) (overlayOutcome : Nat → Bool) :
    List String × List String :=
  plan.overlay_ops.enum.foldl (fun acc iop =>
      if overlayOutcome iop.fst then
        (insertAll acc.fst (involvedModules extractId iop.snd), acc.snd)
      else
        (acc.fst, insertAll acc.snd (involvedModules extractId iop.snd)))
    ([], insertAll [] plan.magic_module_ids)

/-- The overlay ids after the rescind step
(`final_overlay_ids.retain(|id| !final_magic_ids.contains(id))`,
`src/core/ops/executor.rs` line 100), sorted as the source does. -/
def executeOverlayIds (plan : MountPlanModel)
    (extractId : List String → Option String) (overlayOutcome : Nat → Bool) :
    List String :=
  sortByLe (fun a b => decide (a ≤ b))
    ((executeAfterOps plan extractId overlayOutcome).fst.filter
      (fun id => decide (id ∉ (executeAfterOps plan extractId overlayOutcome).snd)))

/-- The magic ids after phase 2: cleared when the magic queue was nonempty
and `magic_mount` failed critically (`src/core/ops/executor.rs` lines
105-142), sorted as the source does. -/
def executeMagicIds (plan : MountPlanModel)
    (extractId : List String → Option String) (overlayOutcome : Nat → Bool)
    (magicCriticalFailure : Bool) : List String :=
  sortByLe (fun a b => decide (a ≤ b))
    (if !(executeAfterOps plan extractId overlayOutcome).snd.isEmpty
        && magicCriticalFailure
     then []
     else (executeAfterOps plan extractId overlayOutcome).snd)

/-- `execute` from `src/core/ops/executor.rs` (lines 28-172), decomposed
into the phases above. -/
def execute (plan : MountPlanModel)
    (extractId : List String → Option String) (overlayOutcome : Nat → Bool)
    (magicCriticalFailure : Bool) : ExecutionResult :=
  { overlay_module_ids := executeOverlayIds plan extractId overlayOutcome
    magic_module_ids :=
      executeMagicIds plan extractId overlayOutcome magicCriticalFailure }

/-- C7: after execution the overlay and magic id sets are disjoint — a
module whose overlay attempt failed was requeued to magic, and the
rescind step removes it from the overlay set, so each module is classified
by its final outcome. -/
theorem execute_overlay_magic_disjoint (plan : MountPlanModel)
    (extractId : List String → Option String) (overlayOutcome : Nat → Bool)
    (magicCriticalFailure : Bool) (id : String)
    (h : id ∈ (execute plan extractId overlayOutcome
        magicCriticalFailure).overlay_module_ids) :
    id ∉ (execute plan extractId overlayOutcome
        magicCriticalFailure).magic_module_ids := by
  intro hm
  have h2 : id ∈ executeOverlayIds plan extractId overlayOutcome := h
  have hm2 : id ∈ executeMagicIds plan extractId overlayOutcome
      magicCriticalFailure := hm
  rw [executeOverlayIds, mem_sortByLe, List.mem_filter] at h2
  rw [executeMagicIds, mem_sortByLe] at hm2
  have hnot : id ∉ (executeAfterOps plan extractId overlayOutcome).snd :=
    of_decide_eq_true h2.2
  by_cases hc : (!(executeAfterOps plan extractId overlayOutcome).snd.isEmpty
      && magicCriticalFailure) = true
  · rw [if_pos hc] at hm2
    exact absurd hm2 (List.not_mem_nil id)
  · rw [if_neg hc] at hm2
    exact hnot hm2

/-- C7 witness: a two-module plan where the overlay op succeeds for module
`A` and module `B` was planned magic. -/
theorem execute_overlay_magic_disjoint_witness :
    ("A" ∈ (execute
        { overlay_ops := [{ partition_name := "system"
                            target := ["system", "app"]
                            lowerdirs := [["storage", "A", "system", "app"]] }]
          overlay_module_ids := ["A"]
          magic_module_ids := ["B"] }
        (fun p => p.get? 1) (fun _ => true) false).overlay_module_ids) ∧
    ("A" ∉ (execute
        { overlay_ops := [{ partition_name := "system"
                            target := ["system", "app"]
                            lowerdirs := [["storage", "A", "system", "app"]] }]
          overlay_module_ids := ["A"]
          magic_module_ids := ["B"] }
        (fun p => p.get? 1) (fun _ => true) false).magic_module_ids) :=
  ⟨by decide,
    execute_overlay_magic_disjoint
      { overlay_ops := [{ partition_name := "system"
                          target := ["system", "app"]
                          lowerdirs := [["storage", "A", "system", "app"]] }]
        overlay_module_ids := ["A"]
        magic_module_ids := ["B"] }
      (fun p => p.get? 1) (fun _ => true) false "A" (by decide)⟩

/-! ### C8: recovery boot counter (src/core/granary.rs) -/

/-- The persistent state `ensure_recovery_state` reads and writes: the boot
counter file's content (if the file exists), the snapshot store (id and
unix timestamp per snapshot, as parsed by `list_snapshots`), the
rescue-notice file, and whether `disable_all_modules` ran. -/
structure RecoverySt where
  counterFile : Option String
  snapshots : List (String × Nat)
  rescueNotice : Option String
  modulesDisabled : Bool
deriving DecidableEq, Repr

/-- `RecoveryStatus` from `src/core/granary.rs` (lines 26-29). -/
inductive RecoveryStatus
  | standby
  | restored
deriving DecidableEq, Repr

/-- `content.trim().parse::<u8>().unwrap_or(0)` from `src/core/granary.rs`
(line 48): trim, then parse as an unsigned 8-bit decimal; any failure
(empty, non-digit, value over 255) yields 0.  (Rust's parser also accepts
a leading `+`, which the counter file this program writes never holds.) -/
def parseCounter (content : String) : Nat :=
  let t := trimChars content.data
  if !t.isEmpty && t.all Char.isDigit then
    let v := t.foldl (fun n c => n * 10 + (c.toNat - 48)) 0
    if v ≤ 255 then v else 0
  else 0

/-- `list_snapshots` ordering (`src/core/granary.rs` line 158):
`sort_by_key(Reverse(timestamp))`, newest first. -/
def sortSnapshotsNewestFirst (s : List (String × Nat)) :
    List (String × Nat) :=
  sortByLe (fun a b => decide (b.snd ≤ a.snd)) s

/-- The snapshot `restore_latest_snapshot` picks
(`src/core/granary.rs` lines 209-217): the head of the newest-first list. -/
def newestSnapshotId (s : List (String × Nat)) : Option String :=
  (sortSnapshotsNewestFirst s).head?.map Prod.fst

/-- The rescue-notice text written on automatic restore
(`src/core/granary.rs` lines 70-73). -/
def rescueNoticeText (id : String) : String :=
  "System recovered from bootloop by restoring snapshot: " ++ id

/-- `ensure_recovery_state` from `src/core/granary.rs` (lines 31-93):
read and parse the counter, increment (u8 arithmetic), write it back; at
3 or more, restore the newest snapshot — on success delete the counter
file and write the rescue notice, returning `Restored`; with no snapshot
available, disable all modules and delete the counter, returning
`Standby`.  Restore succeeds in this model exactly when a snapshot
exists (`list_snapshots` yields only parseable snapshots, and
`atomic_write` failures of the config rewrite are not modelled).
Returns (observed counter value, status, new state). -/
def ensure_recovery_state (st : RecoverySt) :
    Nat × RecoveryStatus × RecoverySt :=
  let count := parseCounter (st.counterFile.getD "")
  let newCount := (count + 1) % 256
  let st1 : RecoverySt := { st with counterFile := some (toString newCount) }
  if newCount ≥ 3 then
    match newestSnapshotId st1.snapshots with
    | some id =>
        (newCount, .restored,
          { st1 with counterFile := none
                     rescueNotice := some (rescueNoticeText id) })
    | none =>
        (newCount, .standby,
          { st1 with modulesDisabled := true, counterFile := none })
  else (newCount, .standby, st1)

/-- `ensure_recovery_state` iterated `n` times, collecting the observed
counter value and status of each run. -/
def runRecovery : Nat → RecoverySt → List (Nat × RecoveryStatus) × RecoverySt
  | 0, st => ([], st)
  | n + 1, st =>
    let r := ensure_recovery_state st
    let rest := runRecovery n r.snd.snd
    ((r.fst, r.snd.fst) :: rest.fst, rest.snd)

/-- The state at first boot: no counter file, no notice. -/
def initRecovery (snaps : List (String × Nat)) : RecoverySt :=
  { counterFile := none
    snapshots := snaps
    rescueNotice := none
    modulesDisabled := false }

theorem runRecovery_succ (n : Nat) (st : RecoverySt) :
    runRecovery (n + 1) st =
      (((ensure_recovery_state st).fst, (ensure_recovery_state st).snd.fst) ::
          (runRecovery n (ensure_recovery_state st).snd.snd).fst,
        (runRecovery n (ensure_recovery_state st).snd.snd).snd) := rfl

theorem sortByLe_ne_nil {α : Type} (le : α → α → Bool) (x : α) (l : List α)
    (h : x ∈ l) : sortByLe le l ≠ [] := by
  intro hnil
  have := (mem_sortByLe le x l).mpr h
  rw [hnil] at this
  exact List.not_mem_nil x this

theorem newestSnapshotId_isSome (S : List (String × Nat)) (hS : S ≠ []) :
    ∃ id, newestSnapshotId S = some id := by
  rcases S with _ | ⟨a, tail⟩
  · exact absurd rfl hS
  · rcases hsort : sortSnapshotsNewestFirst (a :: tail) with _ | ⟨b, rest⟩
    · exact absurd hsort
        (sortByLe_ne_nil _ a (a :: tail) (List.mem_cons_self a tail))
    · exact ⟨b.fst, by simp [newestSnapshotId, hsort]⟩

/-- C8: run `N` times from a fresh state with at least one snapshot on
store, `ensure_recovery_state` observes counter values `1, 2, ...,
min(N, 3)`; the run where the counter reaches 3 restores the newest
snapshot, deletes the counter file, and writes the rescue notice naming
the restored snapshot id. -/
theorem recovery_boot_counter_progression (S : List (String × Nat))
    (hS : S ≠ []) (N : Nat) :
    (((runRecovery N (initRecovery S)).fst.map Prod.fst).take (min N 3)
        = List.range' 1 (min N 3)) ∧
    (3 ≤ N → ∃ id, newestSnapshotId S = some id ∧
      (runRecovery 3 (initRecovery S)).fst
          = [(1, .standby), (2, .standby), (3, .restored)] ∧
      (runRecovery 3 (initRecovery S)).snd.counterFile = none ∧
      (runRecovery 3 (initRecovery S)).snd.rescueNotice
          = some (rescueNoticeText id)) := by
  obtain ⟨id, hid⟩ := newestSnapshotId_isSome S hS
  have step1 : ensure_recovery_state (initRecovery S) =
      (1, .standby,
        { counterFile := some "1", snapshots := S, rescueNotice := none
          modulesDisabled := false }) := by
    have ht : toString (1 : Nat) = "1" := rfl
    simp [ensure_recovery_state, initRecovery, parseCounter, trimChars, ht]
  have step2 : ensure_recovery_state
      { counterFile := some "1", snapshots := S, rescueNotice := none
        modulesDisabled := false } =
      (2, .standby,
        { counterFile := some "2", snapshots := S, rescueNotice := none
          modulesDisabled := false }) := by
    have ht : toString (2 : Nat) = "2" := rfl
    have hp : parseCounter "1" = 1 := rfl
    simp [ensure_recovery_state, hp, ht]
  have step3 : ensure_recovery_state
      { counterFile := some "2", snapshots := S, rescueNotice := none
        modulesDisabled := false } =
      (3, .restored,
        { counterFile := none, snapshots := S
          rescueNotice := some (rescueNoticeText id)
          modulesDisabled := false }) := by
    have hp : parseCounter "2" = 2 := rfl
    simp [ensure_recovery_state, hp, hid]
  have run3 : runRecovery 3 (initRecovery S) =
      ([(1, .standby), (2, .standby), (3, .restored)],
        { counterFile := none, snapshots := S
          rescueNotice := some (rescueNoticeText id)
          modulesDisabled := false }) := by
    rw [show (3 : Nat) = 2 + 1 from rfl, runRecovery_succ, step1]
    simp only
    rw [show (2 : Nat) = 1 + 1 from rfl, runRecovery_succ, step2]
    simp only
    rw [show (1 : Nat) = 0 + 1 from rfl, runRecovery_succ, step3]
    simp [runRecovery]
  constructor
  · rcases N with _ | _ | _ | M
    · simp
    · rw [show (0 : Nat) + 1 = 1 from rfl]
      rw [show (1 : Nat) = 0 + 1 from rfl, runRecovery_succ, step1]
      simp [runRecovery]
    · rw [show (0 : Nat) + 1 + 1 = 2 from rfl]
      rw [show (2 : Nat) = 1 + 1 from rfl, runRecovery_succ, step1]
      simp only
      rw [show (1 : Nat) = 0 + 1 from rfl, runRecovery_succ, step2]
      simp [runRecovery, List.range', min_def]
    · have hmin : min (M + 1 + 1 + 1) 3 = 3 := by omega
      have hsplit : M + 1 + 1 + 1 = M + 3 := by omega
      rw [hsplit]
      rw [show M + 3 = (M + 2) + 1 from rfl, runRecovery_succ, step1]
      simp only
      rw [show M + 2 = (M + 1) + 1 from rfl, runRecovery_succ, step2]
      simp only
      rw [show M + 1 = M + 1 from rfl, runRecovery_succ, step3]
      simp only [List.map_cons]
      rw [show min (M + 3) 3 = 3 by omega]
      simp [List.range', List.take]
  · intro _
    exact ⟨id, hid, by rw [run3], by rw [run3], by rw [run3]⟩

/-- C8 witness: one snapshot on store, three runs. -/
theorem recovery_boot_counter_progression_witness :
    (([("snap_100", 100)] : List (String × Nat)) ≠ []) ∧
    ((3 : Nat) ≤ 3) ∧
    (((runRecovery 3 (initRecovery [("snap_100", 100)])).fst.map
        Prod.fst).take (min 3 3) = List.range' 1 (min 3 3)) :=
  ⟨by decide, by decide,
    (recovery_boot_counter_progression [("snap_100", 100)] (by decide) 3).1⟩

/-! ### C5: magic-mount tmpfs decision (src/mount/magic_mount/mod.rs) -/

/-- `NodeFileType` used by the magic mounter.  Its defining module
`mount/node.rs` is declared (`src/mount/mod.rs` line 5) but absent from the
source tree; the variants are modelled from the spec (§3 Node) and from
every pattern match over them in `src/mount/magic_mount/mod.rs` and
`src/mount/magic.rs`. -/
inductive NodeFileType
  | regularFile
  | directory
  | symlink
  | whiteout
deriving DecidableEq, Repr

/-- Modelled from the spec: the fields of a magic-mount directory `Node`
(§3; `mount/node.rs` is not in the source tree) that the tmpfs decision in
`MagicMount::directory` reads — the node's own declared type, the presence
of a module source, the `.replace` flag, and each child's name and
declared type. -/
structure DirNode where
  file_type : NodeFileType
  module_path : Option String
  replace : Bool
  children : List (String × NodeFileType)
deriving DecidableEq, Repr

/-- The per-child `need` computation of `MagicMount::directory` in
`src/mount/magic_mount/mod.rs` (lines 142-156): a `Symlink` child always
needs a tmpfs; a `Whiteout` child needs one when its live path exists; any
other child compares the live path's type (`symlink_metadata`, `lstat`
abstracted as `lstatType`) against `self.node.file_type` — the PARENT
node's declared type — and needs a tmpfs when they differ or the live path
is a symlink or is missing. -/
def childNeedCurrent (parentType childType : NodeFileType)
    (lstatType : Option NodeFileType) (existsOnLive : Bool) : Bool :=
  match childType with
  | .symlink => true
  | .whiteout => existsOnLive
  | _ =>
    match lstatType with
    | some ft => ft != parentType || ft == .symlink
    | none => true

/-- The tmpfs decision of `MagicMount::directory` in
`src/mount/magic_mount/mod.rs` (lines 139-171) for a directory node that
is not already inside a tmpfs (`has_tmpfs = false`): a fresh tmpfs is
created when `replace` is set and a module source exists, or when the node
has a module source and some child `need`s one (a needing child of a
source-less node is only skip-flagged). -/
def need_tmpfs_current (node : DirNode)
    (lstatType : String → Option NodeFileType) (existsOnLive : String → Bool) :
    Bool :=
  let initial := node.replace && node.module_path.isSome
  if initial then true
  else if node.module_path.isSome then
    node.children.any (fun c =>
      childNeedCurrent node.file_type c.snd (lstatType c.fst)
        (existsOnLive c.fst))
  else false

/-- The same per-child computation in the previous generation of the magic
mounter, `src/mount/magic.rs` (lines 264-277): there the live type is
compared against `node.file_type` — the CHILD's declared type.
(`from_file_type(...).unwrap_or(Whiteout)` classifies an exotic live file
as `Whiteout`; the abstract `lstatType` oracle already yields the
classified type.) -/
def childNeedPrior (childType : NodeFileType)
    (lstatType : Option NodeFileType) (existsOnLive : Bool) : Bool :=
  match childType with
  | .symlink => true
  | .whiteout => existsOnLive
  | _ =>
    match lstatType with
    | some ft => ft != childType || ft == .symlink
    | none => true

/-- The tmpfs decision of the previous generation
(`src/mount/magic.rs` lines 260-292) under the same scope
(`has_tmpfs = false`; `selfExists` is `path.exists()` for the directory
itself, consulted when the node has no module source). -/
def need_tmpfs_prior (node : DirNode)
    (lstatType : String → Option NodeFileType) (existsOnLive : String → Bool)
    (selfExists : Bool) : Bool :=
  let initial := node.replace && node.module_path.isSome
  if initial then true
  else if node.module_path.isSome || selfExists then
    node.children.any (fun c =>
      childNeedPrior c.snd (lstatType c.fst) (existsOnLive c.fst))
  else false

/-- The condition exactly as claim C5 states it: replace flag set, or some
child is a Symlink or Whiteout, or some child's declared type disagrees
with the live type, or some child's path is missing on live. -/
def claimC5Cond (node : DirNode)
    (lstatType : String → Option NodeFileType) : Bool :=
  node.replace ||
    node.children.any (fun c =>
      c.snd == .symlink || c.snd == .whiteout ||
        (match lstatType c.fst with
         | some ft => ft != c.snd
         | none => true))

/-- A directory node owning one regular-file child whose live counterpart
is a regular file: the declared and live types agree, the child exists,
nothing is replaced — the claim (and the previous generation of the code)
call for no tmpfs here, yet the current code creates one because it
compares the live type against the parent's `Directory`. -/
def plainFileDirNode : DirNode :=
  { file_type := .directory
    module_path := some "/debug_ramdisk/A/system/bin"
    replace := false
    children := [("tool", .regularFile)] }

/-- C5: evaluation at the failing input.  `need_tmpfs_current` creates a
tmpfs for `plainFileDirNode` although the claim's condition is false and
the previous generation's decision agrees with the claim — the current
code's comparison against the parent type is the slip. -/
theorem magic_tmpfs_decision_code_bug :
    need_tmpfs_current plainFileDirNode
        (fun n => if n = "tool" then some .regularFile else none)
        (fun n => n == "tool") = true ∧
    claimC5Cond plainFileDirNode
        (fun n => if n = "tool" then some .regularFile else none) = false ∧
    need_tmpfs_prior plainFileDirNode
        (fun n => if n = "tool" then some .regularFile else none)
        (fun n => n == "tool") true = false := by
  exact ⟨by decide, by decide, by decide⟩

/-! ### C6: plan generation (src/core/ops/planner.rs) -/

/-- `defs::BUILTIN_PARTITIONS` from `src/defs.rs` (lines 19-41). -/
def BUILTIN_PARTITIONS : List String :=
  ["system", "vendor", "product", "system_ext", "odm", "oem", "apex",
   "mi_ext", "my_bigball", "my_carrier", "my_company", "my_engineering",
   "my_heytap", "my_manifest", "my_preload", "my_product", "my_region",
   "my_reserve", "my_stock", "optics", "prism"]

/-- `defs::SENSITIVE_PARTITIONS` from `src/defs.rs` (lines 43-64): every
builtin partition except `system`. -/
def SENSITIVE_PARTITIONS : List String :=
  ["vendor", "product", "system_ext", "odm", "oem", "apex",
   "mi_ext", "my_bigball", "my_carrier", "my_company", "my_engineering",
   "my_heytap", "my_manifest", "my_preload", "my_product", "my_region",
   "my_reserve", "my_stock", "optics", "prism"]

/-- The live filesystem as the planner observes it.  Paths are lists of
components of an absolute path (`/` is `[]`). -/
structure PlanFs where
  /-- `Path::exists` -/
  pexists : List String → Bool
  /-- `fs::read_link`: `none` when the path is not a symlink; otherwise the
  link target, flagged absolute or relative -/
  readLink : List String → Option (Bool × List String)
  /-- `Path::canonicalize`: `none` models an `Err` -/
  canonical : List String → Option (List String)
  /-- `Path::is_dir` -/
  isDir : List String → Bool
  /-- names of the immediate subdirectories of a directory (the planner
  only ever iterates `read_dir` entries filtered by `is_dir`) -/
  subdirs : List String → List String

/-- The final component, `Path::file_name()` with
`unwrap_or_default` (`src/core/ops/planner.rs` lines 241-244). -/
def lastComponent (p : List String) : String :=
  (p.getLast?).getD ""

/-- The split test of `src/core/ops/planner.rs` (lines 246-247):
the canonical target's final component is a sensitive partition or
`system`. -/
def shouldSplit (name : String) : Bool :=
  SENSITIVE_PARTITIONS.contains name || name == "system"

/-- Target canonicalization (`src/core/ops/planner.rs` lines 218-239):
resolve one level of symlink (absolute target as is, relative target
against the parent), then `canonicalize` when the resolved path exists
(keeping the resolved path on error), else keep the resolved path. -/
def canonicalTargetOf (fs : PlanFs) (system_target : List String) :
    List String :=
  let resolved :=
    match fs.readLink system_target with
    | some (true, t) => t
    | some (false, t) => system_target.dropLast ++ t
    | none => system_target
  if fs.pexists resolved then (fs.canonical resolved).getD resolved
  else resolved

/-- `ProcessingItem` from `src/core/ops/planner.rs` (lines 145-149). -/
structure ProcItem where
  module_source : List String
  system_target : List String
  partition_label : String
deriving DecidableEq, Repr

/-- One group accumulation step
(`overlay_groups.entry(canonical_target).or_default().push(module_source)`,
`src/core/ops/planner.rs` lines 266-269); the `HashMap` is modelled as an
association list in insertion order. -/
def addGroup (g : List (List String × List (List String)))
    (key : List String) (v : List String) :
    List (List String × List (List String)) :=
  if g.any (fun e => e.fst == key) then
    g.map (fun e => if e.fst == key then (e.fst, e.snd ++ [v]) else e)
  else g ++ [(key, [v])]

/-- The bounded work queue of `src/core/ops/planner.rs` (lines 200-271),
FIFO as in the source (`pop_front` / `push_back`): drop items whose target
does not exist; canonicalize; split sensitive-or-`system` targets into one
item per immediate subdirectory of the module source; group the rest.
The source's queue terminates because each re-enqueued `module_source`
is a strictly deeper directory of a finite tree; the embedding makes the
bound explicit as `fuel`. -/
def processQueue (fs : PlanFs) :
    Nat → List ProcItem → List (List String × List (List String)) →
      List (List String × List (List String))
  | 0, _, g => g
  | _ + 1, [], g => g
  | fuel + 1, item :: rest, g =>
    if !fs.pexists item.system_target then processQueue fs fuel rest g
    else
      let ct := canonicalTargetOf fs item.system_target
      if shouldSplit (lastComponent ct) then
        let subs := (fs.subdirs item.module_source).map (fun s =>
          { module_source := item.module_source ++ [s]
            system_target := ct ++ [s]
            partition_label := item.partition_label : ProcItem })
        processQueue fs fuel (rest ++ subs) g
      else processQueue fs fuel rest (addGroup g ct item.module_source)

/-- A module as the planner consumes it (`Module` of the inventory plus its
source path as components). -/
structure PlannerModule where
  id : String
  sourcePath : List String
  rules : ModuleRules
deriving DecidableEq, Repr

/-- Module content location (`src/core/ops/planner.rs` lines 166-172):
prefer the synced copy under the storage root, fall back to the module
source, skip the module when neither exists. -/
def contentPathOf (fs : PlanFs) (storageRoot : List String)
    (m : PlannerModule) : Option (List String) :=
  let sp := storageRoot ++ [m.id]
  if fs.pexists sp then some sp
  else if fs.pexists m.sourcePath then some m.sourcePath
  else none

/-- The planner's accumulating state: overlay groups plus the overlay and
magic id sets. -/
structure PlanAcc where
  groups : List (List String × List (List String))
  overlayIds : List String
  magicIds : List String

/-- Per-partition-directory handling (`src/core/ops/planner.rs` lines
174-272): skip names that are neither builtin nor configured partitions;
route by the module's rules (`Magic` marks the module id, `Ignore` skips,
`Overlay` records the id and runs the work queue seeded with the
partition directory and `/<dir_name>`). -/
def perPartitionStep (fs : PlanFs) (fuel : Nat) (cfg : EngineConfig)
    (m : PlannerModule) (cp : List String) (dirName : String)
    (acc : PlanAcc) : PlanAcc :=
  if !(BUILTIN_PARTITIONS.contains dirName
        || cfg.partitions.contains dirName) then acc
  else
    match m.rules.get_mode dirName with
    | .magic => { acc with magicIds := insertUnique acc.magicIds m.id }
    | .ignore => acc
    | .overlay =>
      { acc with
        overlayIds := insertUnique acc.overlayIds m.id
        groups := processQueue fs fuel
          [{ module_source := cp ++ [dirName]
             system_target := [dirName]
             partition_label := dirName }] acc.groups }

/-- Folding `perPartitionStep` over the partition directory names of one
module's content root. -/
def perPartitionDirs (fs : PlanFs) (fuel : Nat) (cfg : EngineConfig)
    (m : PlannerModule) (cp : List String) :
    List String → PlanAcc → PlanAcc
  | [], acc => acc
  | dirName :: rest, acc =>
    perPartitionDirs fs fuel cfg m cp rest
      (perPartitionStep fs fuel cfg m cp dirName acc)

/-- One module of the module loop
(`src/core/ops/planner.rs` lines 165-274). -/
def perModuleStep (fs : PlanFs) (fuel : Nat) (cfg : EngineConfig)
    (storageRoot : List String) (m : PlannerModule) (acc : PlanAcc) :
    PlanAcc :=
  match contentPathOf fs storageRoot m with
  | none => acc
  | some cp => perPartitionDirs fs fuel cfg m cp (fs.subdirs cp) acc

/-- The module loop of `generate`. -/
def perModules (fs : PlanFs) (fuel : Nat) (cfg : EngineConfig)
    (storageRoot : List String) :
    List PlannerModule → PlanAcc → PlanAcc
  | [], acc => acc
  | m :: rest, acc =>
    perModules fs fuel cfg storageRoot rest
      (perModuleStep fs fuel cfg storageRoot m acc)

/-- The partition label of an emitted operation: the second `Path`
component of the canonical target, whose first component is the root
(`src/core/ops/planner.rs` lines 283-287). -/
def partitionNameOf (t : List String) : String :=
  (t.head?).getD "unknown"

/-- `generate` from `src/core/ops/planner.rs` (lines 151-302): run the
module loop, then emit one `OverlayOperation` per group whose target is a
real directory, and sort the id sets. -/
def generate (fs : PlanFs) (fuel : Nat) (cfg : EngineConfig)
    (modules : List PlannerModule) (storageRoot : List String) :
    MountPlanModel :=
  let acc := perModules fs fuel cfg storageRoot modules
    { groups := [], overlayIds := [], magicIds := [] }
  { overlay_ops := acc.groups.filterMap (fun e =>
      if fs.isDir e.fst then
        some { partition_name := partitionNameOf e.fst
               target := e.fst
               lowerdirs := e.snd }
      else none)
    overlay_module_ids := sortByLe (fun a b => decide (a ≤ b)) acc.overlayIds
    magic_module_ids := sortByLe (fun a b => decide (a ≤ b)) acc.magicIds }

theorem addGroup_keys (g : List (List String × List (List String)))
    (key v : List String) (k : List String)
    (h : k ∈ (addGroup g key v).map Prod.fst) :
    k = key ∨ k ∈ g.map Prod.fst := by
  unfold addGroup at h
  by_cases hc : g.any (fun e => e.fst == key)
  · rw [if_pos hc] at h
    right
    have hmap : (g.map (fun e =>
        if e.fst == key then (e.fst, e.snd ++ [v]) else e)).map Prod.fst
          = g.map Prod.fst := by
      rw [List.map_map]
      apply List.map_congr_left
      intro e _
      by_cases he : e.fst = key <;> simp [he]
    rwa [hmap] at h
  · rw [if_neg hc, List.map_append] at h
    rcases List.mem_append.mp h with h1 | h1
    · exact Or.inr h1
    · exact Or.inl (by simpa using h1)

theorem processQueue_keys (fs : PlanFs) (fuel : Nat) :
    ∀ (queue : List ProcItem)
      (g : List (List String × List (List String))) (k : List String),
      k ∈ (processQueue fs fuel queue g).map Prod.fst →
        k ∈ g.map Prod.fst ∨ shouldSplit (lastComponent k) = false := by
  induction fuel with
  | zero =>
    intro queue g k h
    exact Or.inl h
  | succ fuel ih =>
    intro queue g k h
    cases queue with
    | nil => exact Or.inl h
    | cons item rest =>
      rw [processQueue] at h
      by_cases hex : fs.pexists item.system_target
      · simp only [hex, Bool.not_true, Bool.false_eq_true, if_false] at h
        by_cases hsp :
            shouldSplit (lastComponent (canonicalTargetOf fs item.system_target))
        · rw [if_pos hsp] at h
          exact ih _ g k h
        · rw [if_neg hsp] at h
          rcases ih _ _ k h with h2 | h2
          · rcases addGroup_keys _ _ _ k h2 with rfl | h3
            · exact Or.inr (by simpa using hsp)
            · exact Or.inl h3
          · exact Or.inr h2
      · simp only [hex, Bool.not_false, if_true] at h
        exact ih _ g k h

theorem perPartitionStep_keys (fs : PlanFs) (fuel : Nat) (cfg : EngineConfig)
    (m : PlannerModule) (cp : List String) (dirName : String) (acc : PlanAcc)
    (k : List String)
    (h : k ∈ (perPartitionStep fs fuel cfg m cp dirName acc).groups.map
        Prod.fst) :
    k ∈ acc.groups.map Prod.fst ∨ shouldSplit (lastComponent k) = false := by
  unfold perPartitionStep at h
  split at h
  · exact Or.inl h
  · split at h
    · exact Or.inl h
    · exact Or.inl h
    · exact processQueue_keys fs fuel _ _ k h

theorem perPartitionDirs_keys (fs : PlanFs) (fuel : Nat) (cfg : EngineConfig)
    (m : PlannerModule) (cp : List String) :
    ∀ (dirs : List String) (acc : PlanAcc) (k : List String),
      k ∈ (perPartitionDirs fs fuel cfg m cp dirs acc).groups.map Prod.fst →
        k ∈ acc.groups.map Prod.fst ∨ shouldSplit (lastComponent k) = false := by
  intro dirs
  induction dirs with
  | nil =>
    intro acc k h
    exact Or.inl h
  | cons d rest ih =>
    intro acc k h
    rw [perPartitionDirs] at h
    rcases ih _ k h with h2 | h2
    · exact perPartitionStep_keys fs fuel cfg m cp d acc k h2
    · exact Or.inr h2

theorem perModuleStep_keys (fs : PlanFs) (fuel : Nat) (cfg : EngineConfig)
    (storageRoot : List String) (m : PlannerModule) (acc : PlanAcc)
    (k : List String)
    (h : k ∈ (perModuleStep fs fuel cfg storageRoot m acc).groups.map
        Prod.fst) :
    k ∈ acc.groups.map Prod.fst ∨ shouldSplit (lastComponent k) = false := by
  unfold perModuleStep at h
  split at h
  · exact Or.inl h
  · exact perPartitionDirs_keys fs fuel cfg m _ _ acc k h

theorem perModules_keys (fs : PlanFs) (fuel : Nat) (cfg : EngineConfig)
    (storageRoot : List String) :
    ∀ (mods : List PlannerModule) (acc : PlanAcc) (k : List String),
      k ∈ (perModules fs fuel cfg storageRoot mods acc).groups.map Prod.fst →
        k ∈ acc.groups.map Prod.fst ∨ shouldSplit (lastComponent k) = false := by
  intro mods
  induction mods with
  | nil =>
    intro acc k h
    exact Or.inl h
  | cons m rest ih =>
    intro acc k h
    rw [perModules] at h
    rcases ih _ k h with h2 | h2
    · exact perModuleStep_keys fs fuel cfg storageRoot m acc k h2
    · exact Or.inr h2

/-- C6: every `OverlayOperation` the planner emits has a canonical target
whose final component is neither a sensitive partition nor `system` (an
item whose canonical target ends in such a component is split into
per-subdirectory items instead of being grouped), and only grouped targets
that are real directories become operations. -/
theorem generate_targets_not_sensitive (fs : PlanFs) (fuel : Nat)
    (cfg : EngineConfig) (modules : List PlannerModule)
    (storageRoot : List String) (op : OverlayOperation)
    (h : op ∈ (generate fs fuel cfg modules storageRoot).overlay_ops) :
    lastComponent op.target ∉ SENSITIVE_PARTITIONS ∧
    lastComponent op.target ≠ "system" ∧
    fs.isDir op.target = true := by
  unfold generate at h
  obtain ⟨e, he, hsome⟩ := List.mem_filterMap.mp h
  by_cases hd : fs.isDir e.fst
  · rw [if_pos hd] at hsome
    obtain rfl :
        ({ partition_name := partitionNameOf e.fst, target := e.fst
           lowerdirs := e.snd } : OverlayOperation) = op := by
      simpa using hsome
    have hkey : e.fst ∈ (perModules fs fuel cfg storageRoot modules
        { groups := [], overlayIds := [], magicIds := [] }).groups.map
          Prod.fst :=
      List.mem_map.mpr ⟨e, he, rfl⟩
    rcases perModules_keys fs fuel cfg storageRoot modules _ e.fst hkey with
      h2 | h2
    · simp at h2
    · unfold shouldSplit at h2
      simp only [Bool.or_eq_false_iff] at h2
      refine ⟨?_, ?_, hd⟩
      · intro hmem
        have : SENSITIVE_PARTITIONS.contains (lastComponent e.fst) = true :=
          List.elem_eq_true_of_mem hmem
        rw [this] at h2
        exact absurd h2.1 (by simp)
      · intro heq
        have : (lastComponent e.fst == "system") = true := by simp [heq]
        rw [this] at h2
        exact absurd h2.2 (by simp)
  · rw [if_neg hd] at hsome
    exact absurd hsome (by simp)

/-- C6 witness: one module contributing `A/system/app`; `/system` is split
(final component `system`), and the re-enqueued `/system/app` is grouped
and emitted. -/
def demoPlanFs : PlanFs :=
  { pexists := fun p =>
      p = ["storage", "A"] || p = ["system"] || p = ["system", "app"]
    readLink := fun _ => none
    canonical := fun p => some p
    isDir := fun p => p = ["system"] || p = ["system", "app"]
    subdirs := fun p =>
      if p = ["storage", "A"] then ["system"]
      else if p = ["storage", "A", "system"] then ["app"]
      else [] }

theorem generate_targets_not_sensitive_witness :
    (({ partition_name := "system", target := ["system", "app"]
        lowerdirs := [["storage", "A", "system", "app"]] } : OverlayOperation)
      ∈ (generate demoPlanFs 3
          { default_mode := .overlay, rules := [], partitions := [] }
          [{ id := "A", sourcePath := ["data", "adb", "modules", "A"]
             rules := { default_mode := .overlay, paths := [] } }]
          ["storage"]).overlay_ops) ∧
    lastComponent (["system", "app"] : List String) ∉ SENSITIVE_PARTITIONS :=
  ⟨by decide,
    (generate_targets_not_sensitive demoPlanFs 3
      { default_mode := .overlay, rules := [], partitions := [] }
      [{ id := "A", sourcePath := ["data", "adb", "modules", "A"]
         rules := { default_mode := .overlay, paths := [] } }]
      ["storage"]
      { partition_name := "system", target := ["system", "app"]
        lowerdirs := [["storage", "A", "system", "app"]] }
      (by decide)).1⟩

/-! ### C4: module sync (src/core/ops/sync.rs) -/

mutual
/-- A file tree as `perform_sync` observes one: regular content (files,
symlinks and device nodes are all byte-content leaves at this level of
abstraction — `sync_dir` clones each kind faithfully) or a directory of
named entries. -/
inductive FTree where
  | file (content : String)
  | dir (entries : FEntries)

/-- Directory entries, as a mutual inductive so recursion over trees is
structural. -/
inductive FEntries where
  | nil
  | cons (name : String) (tree : FTree) (rest : FEntries)
end

/-- Whether a directory listing is empty. -/
def FEntries.isNil : FEntries → Bool
  | .nil => true
  | _ => false

/-- Name lookup among directory entries (filesystem names are unique; the
first match is the entry). -/
def entLookup : FEntries → String → Option FTree
  | .nil, _ => none
  | .cons n t rest, k => if n = k then some t else entLookup rest k

mutual
/-- `prune_empty_dirs` (`src/utils/fs/file.rs` lines 155-173) on one tree:
contents-first removal of directories that end up empty (`none` = the
directory itself was removed). -/
def pruneTree : FTree → Option FTree
  | .file c => some (.file c)
  | .dir es =>
    match pruneEntries es with
    | .nil => none
    | kept => some (.dir kept)

/-- `prune_empty_dirs` over a directory listing. -/
def pruneEntries : FEntries → FEntries
  | .nil => .nil
  | .cons n t rest =>
    match pruneTree t with
    | some t2 => .cons n t2 (pruneEntries rest)
    | none => pruneEntries rest
end

/-- A module as `perform_sync` consumes it: its id and the entries of its
source directory. -/
abbrev SyncMod : Type := String × FEntries

/-- `has_files_recursive` from `src/core/ops/sync.rs` (lines 152-162):
`read_dir` of a non-directory fails (`false`); a directory qualifies when
it has at least one entry. -/
def has_files_recursive : FTree → Bool
  | .dir es => !es.isNil
  | .file _ => false

/-- The `has_content` test of `perform_sync`
(`src/core/ops/sync.rs` lines 21-25): some builtin-partition subdirectory
exists and is non-empty. -/
def has_content (src : FEntries) : Bool :=
  BUILTIN_PARTITIONS.any (fun p =>
    match entLookup src p with
    | some t => has_files_recursive t
    | none => false)

/-- `should_sync` from `src/core/ops/sync.rs` (lines 133-150): sync when
the destination is missing, when either side's `module.prop` is missing
or unreadable (a directory named `module.prop` reads as an error), or
when the two files' bytes differ. -/
def should_sync (src : FEntries) (dst : Option FTree) : Bool :=
  match dst with
  | none => true
  | some d =>
    match entLookup src "module.prop",
        (match d with
         | .dir es => entLookup es "module.prop"
         | .file _ => none) with
    | some (.file s), some (.file t) => decide (s ≠ t)
    | _, _ => true

/-- What one successful module sync installs at the destination
(`src/core/ops/sync.rs` lines 30-75): a byte-for-byte copy of the source
(`sync_dir`) with empty directories pruned; the overlay-opaque xattrs
applied afterwards are metadata, not byte content. -/
def syncResult (src : FEntries) : FEntries :=
  pruneEntries src

/-- Rust `str::starts_with('.')` on the first character. -/
def startsWithDot (s : String) : Bool :=
  match s.data with
  | c :: _ => c == '.'
  | [] => false

/-- The keep-test of `prune_orphaned_modules`
(`src/core/ops/sync.rs` lines 112-117): an entry survives when it is
`lost+found`, `meta-hybrid`, a dotfile, or an active module id. -/
def keepEntry (activeIds : List String) (e : String × FTree) : Bool :=
  e.fst == "lost+found" || e.fst == "meta-hybrid" ||
    startsWithDot e.fst || activeIds.contains e.fst

/-- `prune_orphaned_modules` (`src/core/ops/sync.rs` lines 97-131). -/
def pruneOrphans (activeIds : List String) (dest : List (String × FTree)) :
    List (String × FTree) :=
  dest.filter (keepEntry activeIds)

/-- The destination state plus the number of `fs::rename` calls performed
(backup rename + commit rename per synced module with an existing
destination; commit rename only otherwise). -/
structure SyncOutcome where
  dest : List (String × FTree)
  renames : Nat

/-- One module of `perform_sync`'s per-module loop
(`src/core/ops/sync.rs` lines 17-79), success path: when the module has
partition content and `should_sync` holds, the freshly synced tree
replaces the destination entry (staged in `.tmp_{id}` and installed by
rename, with a backup rename when the destination existed). -/
def syncStep (acc : SyncOutcome) (m : SyncMod) : SyncOutcome :=
  if has_content m.snd && should_sync m.snd (List.lookup m.fst acc.dest) then
    { dest := mapInsert acc.dest m.fst (.dir (syncResult m.snd))
      renames := acc.renames +
        (if (List.lookup m.fst acc.dest).isSome then 2 else 1) }
  else acc

/-- The per-module loop.  The source runs modules in parallel over rayon;
modules touch only their own destination entry, so the sequential fold is
an equivalent schedule. -/
def syncFold : List SyncMod → SyncOutcome → SyncOutcome
  | [], acc => acc
  | m :: rest, acc => syncFold rest (syncStep acc m)

/-- `perform_sync` from `src/core/ops/sync.rs` (lines 12-82): prune
orphans, then sync each module. -/
def perform_sync (mods : List SyncMod) (dest : List (String × FTree)) :
    SyncOutcome :=
  syncFold mods
    { dest := pruneOrphans (mods.map Prod.fst) dest, renames := 0 }

theorem entLookup_pruneEntries_file : ∀ (es : FEntries) (key c : String),
    entLookup es key = some (.file c) →
    entLookup (pruneEntries es) key = some (.file c)
  | .nil, key, c, h => by simp [entLookup] at h
  | .cons n t rest, key, c, h => by
    by_cases hn : n = key
    · subst hn
      rw [entLookup, if_pos rfl] at h
      have ht : t = .file c := by injection h
      subst ht
      simp [pruneEntries, pruneTree, entLookup]
    · rw [entLookup, if_neg hn] at h
      have ih := entLookup_pruneEntries_file rest key c h
      cases hpt : pruneTree t with
      | some t2 => simp [pruneEntries, hpt, entLookup, hn, ih]
      | none => simp [pruneEntries, hpt, ih]

theorem syncStep_lookup_other (acc : SyncOutcome) (m : SyncMod) (id : String)
    (h : id ≠ m.fst) :
    List.lookup id (syncStep acc m).dest = List.lookup id acc.dest := by
  unfold syncStep
  split
  · simp [lookup_mapInsert, h]
  · rfl

theorem syncStep_lookup_self (acc : SyncOutcome) (m : SyncMod) :
    List.lookup m.fst (syncStep acc m).dest =
      if has_content m.snd
          && should_sync m.snd (List.lookup m.fst acc.dest) then
        some (.dir (syncResult m.snd))
      else List.lookup m.fst acc.dest := by
  unfold syncStep
  by_cases hc : (has_content m.snd
      && should_sync m.snd (List.lookup m.fst acc.dest)) = true
  · simp [hc, lookup_mapInsert]
  · simp [hc]

theorem syncFold_lookup_other : ∀ (mods : List SyncMod) (acc : SyncOutcome)
    (id : String), id ∉ mods.map Prod.fst →
    List.lookup id (syncFold mods acc).dest = List.lookup id acc.dest
  | [], _, _, _ => rfl
  | m :: rest, acc, id, h => by
    simp only [List.map_cons, List.mem_cons] at h
    push_neg at h
    rw [syncFold, syncFold_lookup_other rest _ id h.2,
      syncStep_lookup_other acc m id h.1]

/-- A module is stable on a destination when, whenever it would sync, the
destination already holds exactly what the sync would install. -/
def SyncStable (m : SyncMod) (d : List (String × FTree)) : Prop :=
  has_content m.snd = true →
  should_sync m.snd (List.lookup m.fst d) = true →
  List.lookup m.fst d = some (.dir (syncResult m.snd))

theorem syncStable_of_lookup_eq (m : SyncMod) (d d' : List (String × FTree))
    (h : List.lookup m.fst d' = List.lookup m.fst d)
    (hs : SyncStable m d) : SyncStable m d' := by
  intro hc hss
  rw [h] at hss ⊢
  exact hs hc hss

theorem syncStep_self_stable (acc : SyncOutcome) (m : SyncMod) :
    SyncStable m (syncStep acc m).dest := by
  intro hc hss
  rw [syncStep_lookup_self] at hss ⊢
  by_cases hcond : (has_content m.snd
      && should_sync m.snd (List.lookup m.fst acc.dest)) = true
  · rw [if_pos hcond]
  · rw [if_neg hcond] at hss
    exact absurd (by rw [hc, hss]; rfl) hcond

theorem syncFold_stable : ∀ (mods : List SyncMod) (acc : SyncOutcome),
    (mods.map Prod.fst).Nodup →
    ∀ m ∈ mods, SyncStable m (syncFold mods acc).dest
  | [], _, _, m, hm => absurd hm (List.not_mem_nil m)
  | m0 :: rest, acc, hN, m, hm => by
    simp only [List.map_cons, List.nodup_cons] at hN
    rw [syncFold]
    rcases List.mem_cons.mp hm with rfl | hm2
    · exact syncStable_of_lookup_eq m _ _
        (syncFold_lookup_other rest (syncStep acc m) m.fst hN.1)
        (syncStep_self_stable acc m)
    · exact syncFold_stable rest (syncStep acc m0) hN.2 m hm2

theorem syncFold_lookup_of_stable : ∀ (mods : List SyncMod)
    (acc : SyncOutcome), (∀ m ∈ mods, SyncStable m acc.dest) →
    ∀ id, List.lookup id (syncFold mods acc).dest = List.lookup id acc.dest
  | [], _, _, _ => rfl
  | m :: rest, acc, hst, id => by
    have hpt : ∀ j, List.lookup j (syncStep acc m).dest
        = List.lookup j acc.dest := by
      intro j
      by_cases hj : j = m.fst
      · subst hj
        rw [syncStep_lookup_self]
        by_cases hcond : (has_content m.snd
            && should_sync m.snd (List.lookup m.fst acc.dest)) = true
        · rw [if_pos hcond]
          have hab := hcond
          simp only [Bool.and_eq_true] at hab
          exact (hst m (List.mem_cons_self m rest) hab.1 hab.2).symm
        · rw [if_neg hcond]
      · exact syncStep_lookup_other acc m j hj
    have hst2 : ∀ m2 ∈ rest, SyncStable m2 (syncStep acc m).dest :=
      fun m2 hm2 => syncStable_of_lookup_eq m2 _ _ (hpt m2.fst)
        (hst m2 (List.mem_cons_of_mem m hm2))
    rw [syncFold, syncFold_lookup_of_stable rest _ hst2 id, hpt id]

theorem syncFold_skip_all : ∀ (mods : List SyncMod) (acc : SyncOutcome),
    (∀ m ∈ mods, has_content m.snd = true →
      should_sync m.snd (List.lookup m.fst acc.dest) = false) →
    syncFold mods acc = acc
  | [], _, _ => rfl
  | m :: rest, acc, h => by
    have hstep : syncStep acc m = acc := by
      by_cases hc : has_content m.snd = true
      · have hs := h m (List.mem_cons_self m rest) hc
        simp [syncStep, hs]
      · simp only [Bool.not_eq_true] at hc
        simp [syncStep, hc]
    rw [syncFold, hstep,
      syncFold_skip_all rest acc (fun m2 h2 => h m2 (List.mem_cons_of_mem m h2))]

theorem syncFold_should_sync_false : ∀ (mods : List SyncMod)
    (acc : SyncOutcome), (mods.map Prod.fst).Nodup →
    (∀ m ∈ mods, has_content m.snd = true →
      ∃ c, entLookup m.snd "module.prop" = some (.file c)) →
    ∀ m ∈ mods, has_content m.snd = true →
      should_sync m.snd (List.lookup m.fst (syncFold mods acc).dest) = false
  | [], _, _, _, m, hm, _ => absurd hm (List.not_mem_nil m)
  | m0 :: rest, acc, hN, hP, m, hm, hc => by
    simp only [List.map_cons, List.nodup_cons] at hN
    rw [syncFold]
    rcases List.mem_cons.mp hm with rfl | hm2
    · rw [syncFold_lookup_other rest _ m.fst hN.1, syncStep_lookup_self]
      obtain ⟨c, hprop⟩ := hP m (List.mem_cons_self m rest) hc
      by_cases hcond : (has_content m.snd
          && should_sync m.snd (List.lookup m.fst acc.dest)) = true
      · rw [if_pos hcond]
        have hkeep := entLookup_pruneEntries_file m.snd "module.prop" c hprop
        simp [should_sync, hprop, hkeep, syncResult]
      · rw [if_neg hcond]
        cases hss : should_sync m.snd (List.lookup m.fst acc.dest) with
        | true => exact absurd (by rw [hc, hss]; rfl) hcond
        | false => rfl
    · exact syncFold_should_sync_false rest (syncStep acc m0) hN.2
        (fun m2 h2 => hP m2 (List.mem_cons_of_mem m0 h2)) m hm2 hc

theorem syncFold_keeps (ids : List String) : ∀ (mods : List SyncMod)
    (acc : SyncOutcome), (∀ e ∈ acc.dest, keepEntry ids e = true) →
    (∀ m ∈ mods, m.fst ∈ ids) →
    ∀ e ∈ (syncFold mods acc).dest, keepEntry ids e = true
  | [], _, hacc, _, e, he => hacc e he
  | m :: rest, acc, hacc, hm, e, he => by
    refine syncFold_keeps ids rest (syncStep acc m) ?_
      (fun m2 h2 => hm m2 (List.mem_cons_of_mem m h2)) e he
    intro e2 he2
    unfold syncStep at he2
    by_cases hcond : (has_content m.snd
        && should_sync m.snd (List.lookup m.fst acc.dest)) = true
    · rw [if_pos hcond] at he2
      simp only [mapInsert, List.mem_cons] at he2
      rcases he2 with rfl | he2
      · have hmem : m.fst ∈ ids := hm m (List.mem_cons_self m rest)
        simp only [keepEntry, Bool.or_eq_true]
        exact Or.inr (List.elem_eq_true_of_mem hmem)
      · exact hacc e2 (List.mem_filter.mp he2).1
    · rw [if_neg hcond] at he2
      exact hacc e2 he2

/-- C4 counterexample: a module with partition content but no
`module.prop` is re-synced on every run — on the second run `should_sync`
is still true and two renames (backup and commit) are performed, not
zero. -/
theorem sync_not_rename_free_counterexample :
    should_sync
        (.cons "system" (.dir (.cons "foo" (.file "x") .nil)) .nil)
        (List.lookup "m"
          (perform_sync
            [("m", .cons "system" (.dir (.cons "foo" (.file "x") .nil)) .nil)]
            []).dest) = true ∧
    (perform_sync
        [("m", .cons "system" (.dir (.cons "foo" (.file "x") .nil)) .nil)]
        (perform_sync
          [("m", .cons "system" (.dir (.cons "foo" (.file "x") .nil)) .nil)]
          []).dest).renames = 2 := by
  exact ⟨rfl, rfl⟩

/-- C4 amended: running `perform_sync` twice with the same module set
leaves the destination contents identical (every name resolves to the
same tree after the second run); and when every module that has partition
content carries a `module.prop` file, the second run's `should_sync` is
false for every such module and the second run performs zero renames.
(A content-bearing module without `module.prop` is re-synced — with
identical results — on every run.) -/
theorem perform_sync_idempotent (mods : List SyncMod)
    (dest : List (String × FTree)) (hN : (mods.map Prod.fst).Nodup) :
    (∀ id, List.lookup id
        (perform_sync mods (perform_sync mods dest).dest).dest
      = List.lookup id (perform_sync mods dest).dest) ∧
    ((∀ m ∈ mods, has_content m.snd = true →
        ∃ c, entLookup m.snd "module.prop" = some (.file c)) →
      (perform_sync mods (perform_sync mods dest).dest).renames = 0 ∧
      ∀ m ∈ mods, has_content m.snd = true →
        should_sync m.snd
          (List.lookup m.fst (perform_sync mods dest).dest) = false) := by
  have hkeep : ∀ e ∈ (perform_sync mods dest).dest,
      keepEntry (mods.map Prod.fst) e = true := by
    refine syncFold_keeps (mods.map Prod.fst) mods _ ?_ ?_
    · intro e he
      exact (List.mem_filter.mp he).2
    · intro m hm
      exact List.mem_map_of_mem Prod.fst hm
  have hprune : pruneOrphans (mods.map Prod.fst) (perform_sync mods dest).dest
      = (perform_sync mods dest).dest :=
    List.filter_eq_self.mpr hkeep
  have hstable : ∀ m ∈ mods, SyncStable m (perform_sync mods dest).dest :=
    syncFold_stable mods _ hN
  constructor
  · intro id
    have hx := syncFold_lookup_of_stable mods
      { dest := pruneOrphans (mods.map Prod.fst) (perform_sync mods dest).dest
        renames := 0 }
      (by
        intro m hm
        show SyncStable m
          (pruneOrphans (mods.map Prod.fst) (perform_sync mods dest).dest)
        rw [hprune]
        exact hstable m hm) id
    have hx2 : List.lookup id
        (perform_sync mods (perform_sync mods dest).dest).dest
      = List.lookup id
        (pruneOrphans (mods.map Prod.fst) (perform_sync mods dest).dest) := hx
    rw [hprune] at hx2
    exact hx2
  · intro hP
    have hfalse := syncFold_should_sync_false mods
      { dest := pruneOrphans (mods.map Prod.fst) dest, renames := 0 }
      hN hP
    refine ⟨?_, fun m hm hc => hfalse m hm hc⟩
    have hskip := syncFold_skip_all mods
      { dest := pruneOrphans (mods.map Prod.fst) (perform_sync mods dest).dest
        renames := 0 }
      (by
        intro m hm hc
        show should_sync m.snd (List.lookup m.fst
          (pruneOrphans (mods.map Prod.fst)
            (perform_sync mods dest).dest)) = false
        rw [hprune]
        exact hfalse m hm hc)
    exact congrArg SyncOutcome.renames hskip

/-- C4 amended, witness: one module carrying `module.prop`; the second run
performs zero renames. -/
theorem perform_sync_idempotent_witness :
    (([("m", FEntries.cons "module.prop" (.file "v1")
        (.cons "system" (.dir (.cons "foo" (.file "x") .nil)) .nil))]
          : List SyncMod).map Prod.fst).Nodup ∧
    (perform_sync
      [("m", FEntries.cons "module.prop" (.file "v1")
        (.cons "system" (.dir (.cons "foo" (.file "x") .nil)) .nil))]
      (perform_sync
        [("m", FEntries.cons "module.prop" (.file "v1")
          (.cons "system" (.dir (.cons "foo" (.file "x") .nil)) .nil))]
        []).dest).renames = 0 :=
  ⟨by decide,
    ((perform_sync_idempotent
      [("m", FEntries.cons "module.prop" (.file "v1")
        (.cons "system" (.dir (.cons "foo" (.file "x") .nil)) .nil))]
      [] (by decide)).2
      (by
        intro m hm _
        rcases List.mem_singleton.mp hm with rfl
        exact ⟨"v1", rfl⟩)).1⟩

end HybridMount
